import Mathlib

/-!
Verification of the Firebase provisioning orchestrator and of the client-side
configuration logic of the repository.

The backend pipeline (Express server `createFirebaseProject` together with its
helpers `waitForOperation`, `enableFirestore`, `setFirestoreRules` and the
project-id generation) is embedded as pure functions over an explicit
environment of call outcomes; the environment supplies, for every external
platform call the server performs, either the response payload or the message
of the exception the call would throw.  The client-side configuration resolver
(`getFirebaseConfig` / `getStoredFirebaseConfig` from setupFirebase.ts), the
interactive CLI tool's `getFirebaseConfig` (firebase-auto-setup.ts), and the
pasted-text configuration normalizer of the manual setup page are embedded the
same way.  JavaScript truthiness of possibly-absent strings is modelled by
`truthy` over `Option String` (absent = undefined/null, present-empty = "").
-/

/-- JavaScript truthiness of a possibly-absent string value: `undefined`,
`null` and the empty string are falsy, every other string is truthy. -/
def truthy : Option String → Bool
  | some s => s != ""
  | none => false

/-- Outcome of one external call performed by the server: either the value the
call returned, or the message of the exception it threw. -/
inductive Call (α : Type) where
  | ok (value : α)
  | throw (message : String)
  deriving DecidableEq

namespace Backend

/-- One status response of the long-running-operation endpoint, as inspected
by `waitForOperation` (`operation.data.done` and `operation.data.error`; the
error field carries the serialized error payload when present). -/
structure Operation where
  done : Bool
  error : Option String
  deriving DecidableEq

/-- Terminal failure of `waitForOperation`: the operation completed with an
embedded error payload, or the attempt budget was exhausted. -/
inductive WaitErr where
  | operationFailed (payload : String)
  | operationTimedOut
  deriving DecidableEq

/-- Result of a `waitForOperation` run, together with the number of status
polls performed and the number of 2-second sleeps taken. -/
structure WaitTrace where
  result : Except WaitErr Operation
  polls : Nat
  sleeps : Nat

/-- Loop body of `waitForOperation`: `fuel` is the number of loop iterations
remaining out of `maxRetries`, `i` the current iteration index, `polls` and
`sleeps` the counters accumulated so far.  Each iteration fetches the current
operation status; a completed operation returns immediately (failing when an
error payload is embedded), an incomplete one sleeps and retries. -/
def waitGo (status : Nat → Operation) : Nat → Nat → Nat → Nat → WaitTrace
  | 0, _, polls, sleeps => ⟨.error .operationTimedOut, polls, sleeps⟩
  | fuel + 1, i, polls, sleeps =>
    let op := status i
    if op.done then
      match op.error with
      | some payload => ⟨.error (.operationFailed payload), polls + 1, sleeps⟩
      | none => ⟨.ok op, polls + 1, sleeps⟩
    else
      waitGo status fuel (i + 1) (polls + 1) (sleeps + 1)

/-- `waitForOperation(authClient, operationName, maxRetries)`: polls the
operation status up to `maxRetries` times, returning the terminal status or
failing with `operationFailed` (completed with embedded error) or
`operationTimedOut` (budget exhausted).  `status i` is the response of the
i-th poll. -/
def waitForOperation (status : Nat → Operation) (maxRetries : Nat) : WaitTrace :=
  waitGo status maxRetries 0 0 0

/-- An HTTP response as tested by the server: `ok` flag, numeric status, and
the error body text read when the call is treated as failed. -/
structure HttpResp where
  ok : Bool
  status : Nat
  bodyText : String
  deriving DecidableEq

/-- Response of the web-app creation call; `name` is the resource name from
which the app id is derived (`webApp.name.split('/').pop()`). -/
structure WebAppResp where
  ok : Bool
  bodyText : String
  name : String
  deriving DecidableEq

/-- JSON body of the web-app config fetch; every field may be absent, the
server copies them into the returned configuration without validation. -/
structure ConfigPayload where
  apiKey : Option String
  authDomain : Option String
  projectId : Option String
  storageBucket : Option String
  messagingSenderId : Option String
  appId : Option String
  measurementId : Option String
  deriving DecidableEq

/-- Response of the web-app config fetch call. -/
structure ConfigResp where
  ok : Bool
  errorText : String
  payload : ConfigPayload
  deriving DecidableEq

/-- Response of the ruleset creation call. -/
structure RulesetResp where
  ok : Bool
  errorText : String
  rulesetName : String
  deriving DecidableEq

/-- Parent placement of a project-creation request
(`parent: { type: 'organization' | 'folder', id }`). -/
structure ParentRef where
  type : String
  id : String
  deriving DecidableEq

/-- Request body submitted to `cloudresourcemanager.projects.create`. -/
structure CreateBody where
  projectId : String
  name : String
  parent : Option ParentRef
  deriving DecidableEq

/-- Outcomes of the two calls made inside `enableFirestore`. -/
structure FirestoreCalls where
  serviceEnable : Call Unit
  createDb : Call HttpResp

/-- Outcomes of the two calls made inside `setFirestoreRules`. -/
structure RulesCalls where
  createRuleset : Call RulesetResp
  release : Call Unit

/-- Environment of one provisioning run: the random uuid drawn for the
project id, the two optional parent placement env vars (after `|| null`
normalization: absent or empty becomes `none`), and the outcome of every
external call the pipeline performs, keyed by the request where relevant. -/
structure Env where
  uuid : String
  parentOrganization : Option String
  parentFolder : Option String
  createProject : CreateBody → Call String
  operationStatus : Nat → Operation
  addFirebase : Call HttpResp
  webAppCreate : Call WebAppResp
  configFetch : String → Call ConfigResp
  firestore : FirestoreCalls
  rules : RulesCalls

/-- The configuration object assembled and returned on success; fields are
copied verbatim from the fetched payload (hence possibly absent), except that
`measurementId` is included only when truthy
(`...(config.measurementId && { measurementId })`). -/
structure AssembledConfig where
  apiKey : Option String
  authDomain : Option String
  projectId : Option String
  storageBucket : Option String
  messagingSenderId : Option String
  appId : Option String
  measurementId : Option String
  deriving DecidableEq

/-- Assembly of the returned configuration from the fetched config payload. -/
def assembleConfig (c : ConfigPayload) : AssembledConfig :=
  ⟨c.apiKey, c.authDomain, c.projectId, c.storageBucket, c.messagingSenderId,
   c.appId, if truthy c.measurementId then c.measurementId else none⟩

/-- The success value of `createFirebaseProject`
(`{ success: true, projectId, config }`). -/
structure SuccessPayload where
  projectId : String
  config : AssembledConfig
  deriving DecidableEq

/-- `uuidv4().split('-')[0]`: the fragment of the uuid before its first
hyphen (the whole string when it contains none). -/
def uuidFragment (uuid : String) : String :=
  String.mk (uuid.data.takeWhile (fun c => c ≠ '-'))

/-- `webApp.name.split('/').pop()`: the substring after the last slash (the
whole string when it contains none). -/
def lastPathSegment (name : String) : String :=
  String.mk ((name.data.reverse.takeWhile (fun c => c ≠ '/')).reverse)

/-- Project-identifier generation:
`projectId = blog-${userId}-${uuidv4().split('-')[0]}`. -/
def generateProjectId (userId uuidFrag : String) : String :=
  "blog-" ++ userId ++ "-" ++ uuidFrag

/-- The `userId` validation at the request boundary: `if (!userId)` rejects
with HTTP 400, so exactly the non-empty strings are accepted. -/
def userIdAccepted (userId : String) : Bool :=
  userId != ""

/-- Construction of the project-creation request body.  The two optional
parent placements are appended by JavaScript object spread, so a later spread
overwrites an earlier one: the folder spread comes second and wins when both
are truthy. -/
def buildCreateBody (projectId name : String)
    (parentOrganization parentFolder : Option String) : CreateBody :=
  let afterOrg : Option ParentRef :=
    match parentOrganization with
    | some o => if o = "" then none else some ⟨"organization", o⟩
    | none => none
  let afterFolder : Option ParentRef :=
    match parentFolder with
    | some f => if f = "" then afterOrg else some ⟨"folder", f⟩
    | none => afterOrg
  ⟨projectId, name, afterFolder⟩

/-- `enableFirestore`: enables the Firestore API then attempts to create the
default database.  Every failure is converted to a warning (`console.warn`);
a 409 on database creation (already exists) is silently accepted.  The
returned list is the sequence of warnings emitted; the function has no failure
outcome. -/
def enableFirestore (calls : FirestoreCalls) : List String :=
  match calls.serviceEnable with
  | .throw m => ["Firestore setup warning: " ++ m]
  | .ok _ =>
    match calls.createDb with
    | .throw m => ["Firestore setup warning: " ++ m]
    | .ok resp =>
      if !resp.ok && resp.status != 409 then
        ["Firestore creation warning: " ++ resp.bodyText]
      else []

/-- `setFirestoreRules`: submits the default ruleset then releases it.  Every
failure is converted to a warning; the function has no failure outcome. -/
def setFirestoreRules (calls : RulesCalls) : List String :=
  match calls.createRuleset with
  | .throw m => ["Failed to set Firestore rules: " ++ m]
  | .ok resp =>
    if !resp.ok then ["Failed to set rules: " ++ resp.errorText]
    else
      match calls.release with
      | .throw m => ["Failed to set Firestore rules: " ++ m]
      | .ok _ => []

/-- The provisioning pipeline `createFirebaseProject(projectDisplayName,
userId)`: create the GCP project, await the operation, add Firebase, create a
web app, fetch its config, then run the two best-effort steps and return the
assembled configuration.  Returns the thrown error message on any fatal
failure, and on success the payload together with the warnings emitted by the
best-effort steps. -/
def createFirebaseProject (env : Env) (projectDisplayName userId : String) :
    Except String (SuccessPayload × List String) :=
  let projectId := generateProjectId userId (uuidFragment env.uuid)
  match env.createProject (buildCreateBody projectId projectDisplayName
      env.parentOrganization env.parentFolder) with
  | .throw m => .error m
  | .ok _opName =>
    match (waitForOperation env.operationStatus 30).result with
    | .error (.operationFailed payload) => .error ("Operation failed: " ++ payload)
    | .error .operationTimedOut => .error "Operation timed out"
    | .ok _ =>
      match env.addFirebase with
      | .throw m => .error m
      | .ok addResp =>
        if addResp.ok then
          match env.webAppCreate with
          | .throw m => .error m
          | .ok webResp =>
            if webResp.ok then
              match env.configFetch (lastPathSegment webResp.name) with
              | .throw m => .error m
              | .ok cfgResp =>
                if cfgResp.ok then
                  let firestoreWarnings := enableFirestore env.firestore
                  let rulesWarnings := setFirestoreRules env.rules
                  .ok (⟨projectId, assembleConfig cfgResp.payload⟩,
                       firestoreWarnings ++ rulesWarnings)
                else .error ("Failed to get config: " ++ cfgResp.errorText)
            else .error ("Failed to create web app: " ++ webResp.bodyText)
        else .error ("Failed to add Firebase: " ++ addResp.bodyText)

/-- Character class permitted by the platform's project-id naming constraint
referenced by the specification: lowercase letters, digits, hyphen. -/
def isProjectIdChar (c : Char) : Bool :=
  c.isLower || c.isDigit || c = '-'

/-- Whether a generated identifier satisfies the platform charset. -/
def projectIdCharsetOk (s : String) : Bool :=
  s.data.all isProjectIdChar

end Backend

namespace SetupService

/-- A Firebase configuration record as it exists at runtime in the client:
each field may be absent (the TypeScript type promises strings, but records
read from the environment or parsed from storage can lack any field). -/
structure PartialConfig where
  apiKey : Option String
  authDomain : Option String
  projectId : Option String
  storageBucket : Option String
  messagingSenderId : Option String
  appId : Option String
  measurementId : Option String
  deriving DecidableEq

/-- The `import.meta.env.VITE_FIREBASE_*` variables visible to the client;
each may be undefined. -/
structure EnvVars where
  apiKey : Option String
  authDomain : Option String
  projectId : Option String
  storageBucket : Option String
  messagingSenderId : Option String
  appId : Option String
  measurementId : Option String
  deriving DecidableEq

/-- State of the `firebase_auto_config` localStorage entry: no entry, an
entry whose JSON parse throws, or a successfully parsed record. -/
inductive StorageState where
  | absent
  | corrupt
  | stored (record : PartialConfig)
  deriving DecidableEq

/-- Which tier of the precedence policy produced the returned record. -/
inductive ConfigSource where
  | environment
  | persistedClientStore
  deriving DecidableEq

/-- `getStoredFirebaseConfig`: reads and parses the stored record, returning
it only when `config.apiKey && config.projectId && config.authDomain` is
truthy; parse errors are caught and yield null. -/
def getStoredFirebaseConfig : StorageState → Option PartialConfig
  | .absent => none
  | .corrupt => none
  | .stored r =>
    if truthy r.apiKey && truthy r.projectId && truthy r.authDomain then some r
    else none

/-- The record built from environment variables on the environment tier:
every field is copied verbatim, with no validation of any field. -/
def mkEnvConfig (env : EnvVars) : PartialConfig :=
  ⟨env.apiKey, env.authDomain, env.projectId, env.storageBucket,
   env.messagingSenderId, env.appId, env.measurementId⟩

/-- `getFirebaseConfig`: environment variables win whenever
`VITE_FIREBASE_API_KEY` is truthy; otherwise the stored record is consulted;
otherwise no configuration exists.  The `ConfigSource` component records the
branch that produced the result (the source logs a distinct message per
branch). -/
def getFirebaseConfig (env : EnvVars) (st : StorageState) :
    Option (PartialConfig × ConfigSource) :=
  if truthy env.apiKey then some (mkEnvConfig env, .environment)
  else
    match getStoredFirebaseConfig st with
    | some c => some (c, .persistedClientStore)
    | none => none

/-- `getUserId` generation branch:
`user_${Date.now()}_${Math.random().toString(36).substr(2, 9)}`. -/
def generateUserId (nowMs : Nat) (randTok : String) : String :=
  "user_" ++ toString nowMs ++ "_" ++ randTok

end SetupService

namespace AutoSetupCli

/-- The SDK config object examined by the CLI tool; fields may be absent. -/
structure SdkPayload where
  apiKey : Option String
  projectId : Option String
  authDomain : Option String
  storageBucket : Option String
  messagingSenderId : Option String
  appId : Option String
  measurementId : Option String
  deriving DecidableEq

/-- The parsed JSON output of `firebase apps:sdkconfig`, as far as the
unwrapping chain `result.sdkConfig || result.result?.sdkConfig || result`
inspects it: the two possible nested positions of the payload plus the
object itself read as a payload. -/
structure CliResult where
  sdkConfig : Option SdkPayload
  resultSdkConfig : Option SdkPayload
  selfPayload : SdkPayload
  deriving DecidableEq

/-- The unwrapping chain selecting the candidate config object. -/
def unwrapSdkConfig (r : CliResult) : SdkPayload :=
  match r.sdkConfig with
  | some c => c
  | none =>
    match r.resultSdkConfig with
    | some c => c
    | none => r.selfPayload

/-- The CLI tool's `getFirebaseConfig(projectId, appId)`: runs the sdkconfig
command, unwraps the payload, and rejects it (`return null`) when
`!config.apiKey || !config.projectId`, even though the command itself
succeeded; a command failure is caught and also yields null. -/
def getFirebaseConfig (execResult : Call CliResult) : Option SdkPayload :=
  match execResult with
  | .throw _ => none
  | .ok result =>
    let config := unwrapSdkConfig result
    if !truthy config.apiKey || !truthy config.projectId then none
    else some config

end AutoSetupCli


namespace Normalizer

/-- Working text of the normalizer. -/
abbrev Chars := List Char

/-- The whitespace class used by the regex stages and by trim (restricted to
space, tab, carriage return, newline). -/
def isWsChar (c : Char) : Bool :=
  c = ' ' || c = '\t' || c = '\n' || c = '\r'

/-- The regex word class: ASCII letters, digits, underscore. -/
def isWordChar (c : Char) : Bool :=
  c.isAlphanum || c = '_'

/-- `String.prototype.trim`. -/
def trimChars (cs : Chars) : Chars :=
  ((cs.dropWhile isWsChar).reverse.dropWhile isWsChar).reverse

/-- Scanner for `input.replace(/\/\/.*$/gm, '')`: outside a comment, a
double slash starts skipping; skipping stops at the line terminator, which is
kept. -/
def stripLineCommentsGo : Nat → Bool → Chars → Chars
  | 0, _, cs => cs
  | _ + 1, _, [] => []
  | fuel + 1, true, c :: rest =>
    if c = '\n' || c = '\r' then c :: stripLineCommentsGo fuel false rest
    else stripLineCommentsGo fuel true rest
  | fuel + 1, false, c :: rest =>
    if c = '/' then
      match rest with
      | '/' :: r2 => stripLineCommentsGo fuel true r2
      | _ => c :: stripLineCommentsGo fuel false rest
    else c :: stripLineCommentsGo fuel false rest

/-- Removal of single-line comments. -/
def stripLineComments (cs : Chars) : Chars :=
  stripLineCommentsGo cs.length false cs

/-- The position just after the next `*` `/` pair, when one exists. -/
def findBlockCommentClose : Chars → Option Chars
  | '*' :: '/' :: rest => some rest
  | _ :: rest => findBlockCommentClose rest
  | [] => none

/-- Scanner for `input.replace(/\/\*[\s\S]*?\*\//g, '')`: a comment opener
with a matching closer is removed up to the closer (lazy match); an opener
with no closer is kept, matching the regex which then finds no match. -/
def stripBlockCommentsGo : Nat → Chars → Chars
  | 0, cs => cs
  | _ + 1, [] => []
  | fuel + 1, c :: rest =>
    if c = '/' then
      match rest with
      | '*' :: r2 =>
        (match findBlockCommentClose r2 with
         | some rest2 => stripBlockCommentsGo fuel rest2
         | none => '/' :: '*' :: stripBlockCommentsGo fuel r2)
      | _ => c :: stripBlockCommentsGo fuel rest
    else c :: stripBlockCommentsGo fuel rest

/-- Removal of block comments. -/
def stripBlockComments (cs : Chars) : Chars :=
  stripBlockCommentsGo cs.length cs

/-- `input.match(/\{[\s\S]*\}/)`: the span from the first opening brace to
the last closing brace, provided some closing brace follows the first opening
brace; when the pattern does not match, the whole text is used instead. -/
def extractObject (cs : Chars) : Chars :=
  match cs.dropWhile (fun c => c ≠ '\x7b') with
  | [] => cs
  | b :: rest =>
    if rest.contains '\x7d' then
      ((b :: rest).reverse.dropWhile (fun c => c ≠ '\x7d')).reverse
    else cs

/-- Match a literal character sequence at the head and return the remainder. -/
def dropLiteral : Chars → Chars → Option Chars
  | [], cs => some cs
  | p :: ps, c :: cs => if c = p then dropLiteral ps cs else none
  | _ :: _, [] => none

/-- One-or-more whitespace characters at the head. -/
def dropWsPlus : Chars → Option Chars
  | c :: rest => if isWsChar c then some (rest.dropWhile isWsChar) else none
  | [] => none

/-- The `(const|var|let)\s+\w+\s*=\s*` tail of the declaration pattern. -/
def matchDeclTail (cs : Chars) : Option Chars :=
  let afterKw :=
    match dropLiteral ['c', 'o', 'n', 's', 't'] cs with
    | some r => some r
    | none =>
      match dropLiteral ['v', 'a', 'r'] cs with
      | some r => some r
      | none => dropLiteral ['l', 'e', 't'] cs
  match afterKw with
  | none => none
  | some r =>
    match dropWsPlus r with
    | none => none
    | some r2 =>
      match r2 with
      | [] => none
      | c :: rest =>
        if isWordChar c then
          match (rest.dropWhile isWordChar).dropWhile isWsChar with
          | '=' :: r5 => some (r5.dropWhile isWsChar)
          | _ => none
        else none

/-- `jsonToParse.replace(/^(export\s+)?(const|var|let)\s+\w+\s*=\s*/, '')`:
the anchored pattern is tried with the optional export group and then
without it; on no match the text is unchanged. -/
def declStrip (cs : Chars) : Chars :=
  let withExport :=
    match dropLiteral ['e', 'x', 'p', 'o', 'r', 't'] cs with
    | some r =>
      (match dropWsPlus r with
       | some r2 => matchDeclTail r2
       | none => none)
    | none => none
  match withExport with
  | some r => r
  | none =>
    match matchDeclTail cs with
    | some r => r
    | none => cs

/-- `jsonToParse.replace(/;+\s*$/, '')`: trailing whitespace preceded by a
run of semicolons is removed together with that run. -/
def stripSemiSuffix (cs : Chars) : Chars :=
  let rw := cs.reverse.dropWhile isWsChar
  match rw with
  | ';' :: _ => (rw.dropWhile (fun c => c = ';')).reverse
  | _ => cs

/-- The `\s*\w+\s*:` tail of the key-quoting pattern, returning the three
captured pieces and the remainder after the colon. -/
def tryKeyMatch (cs : Chars) : Option (Chars × Chars × Chars × Chars) :=
  let ws1 := cs.takeWhile isWsChar
  let r1 := cs.dropWhile isWsChar
  match r1.takeWhile isWordChar with
  | [] => none
  | w =>
    let r2 := r1.dropWhile isWordChar
    let ws2 := r2.takeWhile isWsChar
    match r2.dropWhile isWsChar with
    | ':' :: r4 => some (ws1, w, ws2, r4)
    | _ => none

/-- `replace(/([{,]\s*)(\w+)(\s*):/g, '$1"$2"$3:')`: quote a bare key after
an opening brace or a comma.  The regex is string-unaware; scanning resumes
after each match and advances one character after a non-match. -/
def quoteKeysGo : Nat → Chars → Chars
  | 0, cs => cs
  | _ + 1, [] => []
  | fuel + 1, c :: rest =>
    if c = '\x7b' || c = ',' then
      match tryKeyMatch rest with
      | some (ws1, w, ws2, r4) =>
        c :: (ws1 ++ ('"' :: (w ++ ('"' :: (ws2 ++ (':' :: quoteKeysGo fuel r4))))))
      | none => c :: quoteKeysGo fuel rest
    else c :: quoteKeysGo fuel rest

/-- Key quoting over the whole text. -/
def quoteKeys (cs : Chars) : Chars :=
  quoteKeysGo cs.length cs

/-- `replace(/,(\s*[}\]])/g, '$1')`: drop a comma standing immediately
before optional whitespace and a closing brace or bracket. -/
def removeTrailingCommasGo : Nat → Chars → Chars
  | 0, cs => cs
  | _ + 1, [] => []
  | fuel + 1, c :: rest =>
    if c = ',' then
      match rest.dropWhile isWsChar with
      | b :: r3 =>
        if b = '\x7d' || b = ']' then
          rest.takeWhile isWsChar ++ (b :: removeTrailingCommasGo fuel r3)
        else c :: removeTrailingCommasGo fuel rest
      | [] => c :: removeTrailingCommasGo fuel rest
    else c :: removeTrailingCommasGo fuel rest

/-- Trailing-comma removal over the whole text. -/
def removeTrailingCommas (cs : Chars) : Chars :=
  removeTrailingCommasGo cs.length cs

/-- A JSON value as produced by JSON.parse; numbers keep their source text. -/
inductive Json where
  | null
  | bool (b : Bool)
  | num (raw : String)
  | str (s : String)
  | arr (items : List Json)
  | obj (members : List (String × Json))

/-- JSON whitespace. -/
def skipWsJson (cs : Chars) : Chars :=
  cs.dropWhile isWsChar

/-- Value of one hex digit. -/
def hexDigitVal (c : Char) : Option Nat :=
  if '0' ≤ c ∧ c ≤ '9' then some (c.toNat - '0'.toNat)
  else if 'a' ≤ c ∧ c ≤ 'f' then some (c.toNat - 'a'.toNat + 10)
  else if 'A' ≤ c ∧ c ≤ 'F' then some (c.toNat - 'A'.toNat + 10)
  else none

/-- Decoding of one JSON string escape (the characters after the backslash);
a `\u` escape decodes its code unit directly (surrogate pairing is not
modelled). -/
def decodeEscape : Chars → Option (Char × Chars)
  | 'u' :: h1 :: h2 :: h3 :: h4 :: rest2 =>
    (match hexDigitVal h1, hexDigitVal h2, hexDigitVal h3, hexDigitVal h4 with
     | some a, some b, some c, some d =>
       some (Char.ofNat (((a * 16 + b) * 16 + c) * 16 + d), rest2)
     | _, _, _, _ => none)
  | '"' :: rest2 => some ('"', rest2)
  | '\\' :: rest2 => some ('\\', rest2)
  | '/' :: rest2 => some ('/', rest2)
  | 'b' :: rest2 => some (Char.ofNat 8, rest2)
  | 'f' :: rest2 => some (Char.ofNat 12, rest2)
  | 'n' :: rest2 => some ('\n', rest2)
  | 'r' :: rest2 => some ('\r', rest2)
  | 't' :: rest2 => some ('\t', rest2)
  | _ => none

/-- Body of a JSON string after the opening quote: the decoded characters
and the remainder after the closing quote.  Escapes (including the `\/`
escape) are decoded and raw control characters are rejected. -/
def parseStringBody : Nat → Chars → Option (Chars × Chars)
  | 0, _ => none
  | _ + 1, [] => none
  | fuel + 1, c :: rest =>
    if c = '"' then some ([], rest)
    else if c = '\\' then
      match decodeEscape rest with
      | none => none
      | some (d, rest2) =>
        match parseStringBody fuel rest2 with
        | some (s, r) => some (d :: s, r)
        | none => none
    else if c.toNat < 32 then none
    else
      match parseStringBody fuel rest with
      | some (s, r) => some (c :: s, r)
      | none => none

/-- The optional fraction part of a JSON number. -/
def parseFracPart : Chars → Option (Chars × Chars)
  | '.' :: rest =>
    (match rest with
     | c :: _ =>
       if c.isDigit then
         some ('.' :: rest.takeWhile Char.isDigit, rest.dropWhile Char.isDigit)
       else none
     | [] => none)
  | cs => some ([], cs)

/-- The optional exponent part of a JSON number. -/
def parseExpPart : Chars → Option (Chars × Chars)
  | c :: rest =>
    if c = 'e' || c = 'E' then
      let signed : Chars × Chars :=
        match rest with
        | s :: r2 => if s = '+' || s = '-' then ([s], r2) else ([], rest)
        | [] => ([], rest)
      match signed.2 with
      | d :: _ =>
        if d.isDigit then
          some (c :: (signed.1 ++ signed.2.takeWhile Char.isDigit),
                signed.2.dropWhile Char.isDigit)
        else none
      | [] => none
    else some ([], c :: rest)
  | [] => some ([], [])

/-- `-?(0|[1-9][0-9]*)(\.[0-9]+)?([eE][+-]?[0-9]+)?`: the raw number text and
the remainder. -/
def parseNumber (cs : Chars) : Option (Chars × Chars) :=
  let signed : Chars × Chars :=
    match cs with
    | '-' :: r => (['-'], r)
    | _ => ([], cs)
  match signed.2 with
  | [] => none
  | c :: rest =>
    if c.isDigit then
      let intPart : Chars × Chars :=
        if c = '0' then (['0'], rest)
        else ((c :: rest).takeWhile Char.isDigit, (c :: rest).dropWhile Char.isDigit)
      match parseFracPart intPart.2 with
      | none => none
      | some (frac, r2) =>
        match parseExpPart r2 with
        | none => none
        | some (ex, r3) => some (signed.1 ++ (intPart.1 ++ (frac ++ ex)), r3)
    else none

/-- Parsing mode of the JSON parser: a value, the members of an object, or
the items of an array; the flag is true right after the opening bracket,
where an immediate closing bracket is legal. -/
inductive PMode where
  | value
  | members (first : Bool) (acc : List (String × Json))
  | items (first : Bool) (acc : List Json)

/-- Fuel-indexed JSON parser covering the document grammar JSON.parse
accepts. -/
def parseJ : Nat → PMode → Chars → Option (Json × Chars)
  | 0, _, _ => none
  | fuel + 1, .value, cs =>
    (match skipWsJson cs with
     | [] => none
     | '"' :: rest =>
       (match parseStringBody rest.length rest with
        | some (s, r) => some (Json.str (String.mk s), r)
        | none => none)
     | '\x7b' :: rest => parseJ fuel (.members true []) rest
     | '[' :: rest => parseJ fuel (.items true []) rest
     | 't' :: rest =>
       (match dropLiteral ['r', 'u', 'e'] rest with
        | some r => some (Json.bool true, r)
        | none => none)
     | 'f' :: rest =>
       (match dropLiteral ['a', 'l', 's', 'e'] rest with
        | some r => some (Json.bool false, r)
        | none => none)
     | 'n' :: rest =>
       (match dropLiteral ['u', 'l', 'l'] rest with
        | some r => some (Json.null, r)
        | none => none)
     | c :: rest =>
       if c = '-' || c.isDigit then
         match parseNumber (c :: rest) with
         | some (raw, r) => some (Json.num (String.mk raw), r)
         | none => none
       else none)
  | fuel + 1, .members first acc, cs =>
    (match skipWsJson cs with
     | '\x7d' :: rest => if first then some (Json.obj acc, rest) else none
     | '"' :: rest =>
       (match parseStringBody rest.length rest with
        | none => none
        | some (k, r2) =>
          match skipWsJson r2 with
          | ':' :: r3 =>
            (match parseJ fuel .value r3 with
             | none => none
             | some (v, r4) =>
               match skipWsJson r4 with
               | ',' :: r5 =>
                 parseJ fuel (.members false (acc ++ [(String.mk k, v)])) r5
               | '\x7d' :: r5 => some (Json.obj (acc ++ [(String.mk k, v)]), r5)
               | _ => none)
          | _ => none)
     | _ => none)
  | fuel + 1, .items first acc, cs =>
    (match skipWsJson cs with
     | ']' :: rest => if first then some (Json.arr acc, rest) else none
     | _ =>
       match parseJ fuel .value cs with
       | none => none
       | some (v, r2) =>
         match skipWsJson r2 with
         | ',' :: r3 => parseJ fuel (.items false (acc ++ [v])) r3
         | ']' :: r3 => some (Json.arr (acc ++ [v]), r3)
         | _ => none)

/-- `JSON.parse`: a complete document with optional surrounding whitespace. -/
def parseJsonText (s : String) : Option Json :=
  match parseJ (2 * s.data.length + 8) .value s.data with
  | some (v, rest) => if skipWsJson rest = [] then some v else none
  | none => none

/-- Whether the mantissa of a JSON number text has a nonzero digit (zero is
falsy in JavaScript). -/
def numTruthy (raw : String) : Bool :=
  (raw.data.takeWhile (fun c => c ≠ 'e' ∧ c ≠ 'E')).any
    (fun c => c.isDigit && c ≠ '0')

/-- JavaScript truthiness of a property-access result on the parsed value. -/
def jsonTruthy : Option Json → Bool
  | none => false
  | some .null => false
  | some (.bool b) => b
  | some (.num raw) => numTruthy raw
  | some (.str s) => s != ""
  | some (.arr _) => true
  | some (.obj _) => true

/-- Property access `parsedConfig[field]` on a parsed object: the value of
the last member with that key (JSON.parse keeps the last duplicate). -/
def objGet (members : List (String × Json)) (key : String) : Option Json :=
  match members.reverse.find? (fun m => m.1 == key) with
  | some m => some m.2
  | none => none

/-- The required-field list of handleManualSetup, in source order. -/
def requiredFields : List String :=
  ["apiKey", "authDomain", "projectId", "storageBucket", "appId"]

/-- Failure outcomes of the manual-setup normalizer, one per guard:
empty input, JSON syntax error, non-object parse result, missing required
fields. -/
inductive ParseFailure where
  | emptyInput
  | malformed
  | notAnObject
  | missingFields (fields : List String)
  deriving DecidableEq

/-- The record handleManualSetup constructs from the parsed object;
`measurementId` is present only when included by the truthiness spread. -/
structure NormalizedConfig where
  apiKey : Json
  authDomain : Json
  projectId : Json
  storageBucket : Json
  messagingSenderId : Json
  appId : Json
  measurementId : Option Json

/-- The tail of handleManualSetup after JSON.parse: missing-field detection
by truthiness over the five required fields (collecting every missing field),
record construction with `messagingSenderId || ''` defaulting and
truthiness-gated `measurementId` inclusion. -/
def validateMembers (members : List (String × Json)) :
    Except ParseFailure NormalizedConfig :=
  let missing := requiredFields.filter (fun f => !jsonTruthy (objGet members f))
  if missing = [] then
    .ok ⟨(objGet members "apiKey").getD .null,
         (objGet members "authDomain").getD .null,
         (objGet members "projectId").getD .null,
         (objGet members "storageBucket").getD .null,
         (if jsonTruthy (objGet members "messagingSenderId") then
            (objGet members "messagingSenderId").getD .null
          else .str ""),
         (objGet members "appId").getD .null,
         (if jsonTruthy (objGet members "measurementId") then
            objGet members "measurementId"
          else none)⟩
  else .error (.missingFields missing)

/-- The text-rewriting stages of handleManualSetup applied to the trimmed
input, in source order: line-comment stripping, block-comment stripping,
object-literal extraction, declaration stripping, statement terminator
stripping with trim, key quoting, trailing-comma removal. -/
def preprocess (input0 : Chars) : Chars :=
  removeTrailingCommas (quoteKeys (trimChars (stripSemiSuffix (declStrip
    (extractObject (stripBlockComments (stripLineComments input0)))))))

/-- The tail of handleManualSetup after JSON.parse: a parse failure is the
SyntaxError branch, an object goes to field validation, and a non-object is
rejected — except that an array is `typeof 'object'` in JavaScript, passes
the object check, and has every required field missing. -/
def dispatchParsed (parsed : Option Json) : Except ParseFailure NormalizedConfig :=
  match parsed with
  | none => .error .malformed
  | some (.obj members) => validateMembers members
  | some (.arr _) => .error (.missingFields requiredFields)
  | some _ => .error .notAnObject

/-- The normalization pipeline of handleManualSetup: trim with nonempty
check, the rewriting stages of `preprocess`, JSON parsing, then the object
check and field validation of `dispatchParsed`. -/
def normalize (rawText : String) : Except ParseFailure NormalizedConfig :=
  if trimChars rawText.data = [] then .error .emptyInput
  else dispatchParsed (parseJsonText (String.mk (preprocess (trimChars rawText.data))))

/-- One hex digit character (lowercase). -/
def hexDigitChar (n : Nat) : Char :=
  if n < 10 then Char.ofNat ('0'.toNat + n) else Char.ofNat ('a'.toNat + n - 10)

/-- JSON.stringify escaping of one character (forward slash is not escaped). -/
def escapeJsonChar (c : Char) : Chars :=
  if c = '"' then ['\\', '"']
  else if c = '\\' then ['\\', '\\']
  else if c = '\n' then ['\\', 'n']
  else if c = '\r' then ['\\', 'r']
  else if c = '\t' then ['\\', 't']
  else if c = Char.ofNat 8 then ['\\', 'b']
  else if c = Char.ofNat 12 then ['\\', 'f']
  else if c.toNat < 32 then
    ['\\', 'u', '0', '0', hexDigitChar (c.toNat / 16), hexDigitChar (c.toNat % 16)]
  else [c]

/-- Concatenated image of a character list under an escape map. -/
def concatMap (f : Char → Chars) : Chars → Chars
  | [] => []
  | c :: rest => f c ++ concatMap f rest

/-- A JSON string literal for `s`. -/
def quoteJson (s : String) : Chars :=
  '"' :: (concatMap escapeJsonChar s.data ++ ['"'])

/-- An AppConfig with string fields, the shape the data model prescribes for
records the normalizer outputs and saveFirebaseConfig persists. -/
structure StrConfig where
  apiKey : String
  authDomain : String
  projectId : String
  storageBucket : String
  messagingSenderId : String
  appId : String
  measurementId : Option String
  deriving DecidableEq

/-- The member list JSON.stringify serializes for a config record, in the
construction order of handleManualSetup. -/
def configMembers (c : StrConfig) : List (String × String) :=
  [("apiKey", c.apiKey), ("authDomain", c.authDomain),
   ("projectId", c.projectId), ("storageBucket", c.storageBucket),
   ("messagingSenderId", c.messagingSenderId), ("appId", c.appId)] ++
  (match c.measurementId with
   | some m => [("measurementId", m)]
   | none => [])

/-- One serialized object member. -/
def memberChars (kv : String × String) : Chars :=
  quoteJson kv.1 ++ (':' :: quoteJson kv.2)

/-- Comma-joined serialized members. -/
def membersChars : List (String × String) → Chars
  | [] => []
  | [kv] => memberChars kv
  | kv :: rest => memberChars kv ++ (',' :: membersChars rest)

/-- `JSON.stringify` of a config record: strict JSON, no whitespace, keys in
insertion order. -/
def stringifyStrConfig (c : StrConfig) : String :=
  String.mk ('\x7b' :: (membersChars (configMembers c) ++ ['\x7d']))

/-- The normalizer record corresponding to a string-fielded record. -/
def ofStrConfig (c : StrConfig) : NormalizedConfig :=
  ⟨.str c.apiKey, .str c.authDomain, .str c.projectId, .str c.storageBucket,
   .str c.messagingSenderId, .str c.appId, c.measurementId.map .str⟩

/-- A normalizer output read back as a string-fielded record, when every
field is a string. -/
def toStrConfig : NormalizedConfig → Option StrConfig
  | ⟨.str a, .str b, .str c, .str d, .str e, .str f, mm⟩ =>
    (match mm with
     | none => some ⟨a, b, c, d, e, f, none⟩
     | some (.str m) => some ⟨a, b, c, d, e, f, some m⟩
     | some _ => none)
  | _ => none

/-- Characters inert for every stage of the normalizer: printable, and none
of quote, backslash, slash, braces, brackets, comma, colon. -/
def safeChar (c : Char) : Bool :=
  32 ≤ c.toNat && c ≠ '"' && c ≠ '\\' && c ≠ '/' && c ≠ '\x7b' && c ≠ '\x7d' &&
  c ≠ '[' && c ≠ ']' && c ≠ ',' && c ≠ ':'

/-- All characters of a string inert. -/
def safeStr (s : String) : Bool :=
  s.data.all safeChar

/-- Strict-JSON structure witness used by the stage-identity lemmas: every
opening brace and every comma is immediately followed by a double quote. -/
def structOk : Chars → Bool
  | [] => true
  | c :: rest =>
    if c = '\x7b' || c = ',' then rest.head? == some '"' && structOk rest
    else structOk rest

end Normalizer

/-! ## Properties of the operation poller -/

namespace Backend

theorem waitGo_never_done (status : Nat → Operation)
    (h : ∀ j, (status j).done = false) :
    ∀ fuel i polls sleeps, waitGo status fuel i polls sleeps =
      ⟨.error .operationTimedOut, polls + fuel, sleeps + fuel⟩ := by
  intro fuel
  induction fuel with
  | zero => intro i polls sleeps; simp [waitGo]
  | succ n ih =>
    intro i polls sleeps
    rw [show waitGo status (n + 1) i polls sleeps =
        waitGo status n (i + 1) (polls + 1) (sleeps + 1) by simp [waitGo, h i]]
    rw [ih (i + 1) (polls + 1) (sleeps + 1)]
    have h1 : polls + 1 + n = polls + (n + 1) := by omega
    have h2 : sleeps + 1 + n = sleeps + (n + 1) := by omega
    rw [h1, h2]

end Backend

/-- C3: on a handle whose status never becomes done, waitForOperation with
attempt budget maxRetries fails with OperationTimeout after performing exactly
maxRetries status polls, not more and not fewer (and sleeps once per poll). -/
theorem waitForOperation_never_done_times_out (status : Nat → Backend.Operation)
    (maxRetries : Nat) (h : ∀ j, (status j).done = false) :
    Backend.waitForOperation status maxRetries =
      ⟨.error .operationTimedOut, maxRetries, maxRetries⟩ := by
  unfold Backend.waitForOperation
  rw [Backend.waitGo_never_done status h maxRetries 0 0 0]
  simp

theorem waitForOperation_never_done_times_out_witness :
    Backend.waitForOperation (fun _ => ⟨false, none⟩) 3 =
      ⟨.error .operationTimedOut, 3, 3⟩ :=
  waitForOperation_never_done_times_out (fun _ => ⟨false, none⟩) 3 (fun _ => rfl)

/-- C2: when the very first status poll reports the operation done with an
embedded error payload, waitForOperation fails immediately with
OperationFailed carrying that payload, after exactly one poll and no sleep. -/
theorem waitForOperation_done_error_first_poll (status : Nat → Backend.Operation)
    (maxRetries : Nat) (payload : String) (hpos : 0 < maxRetries)
    (hdone : (status 0).done = true) (herr : (status 0).error = some payload) :
    Backend.waitForOperation status maxRetries =
      ⟨.error (.operationFailed payload), 1, 0⟩ := by
  cases maxRetries with
  | zero => exact absurd hpos (by omega)
  | succ n =>
    simp [Backend.waitForOperation, Backend.waitGo, hdone, herr]

theorem waitForOperation_done_error_first_poll_witness :
    Backend.waitForOperation (fun _ => ⟨true, some "EEXIST"⟩) 30 =
      ⟨.error (.operationFailed "EEXIST"), 1, 0⟩ :=
  waitForOperation_done_error_first_poll (fun _ => ⟨true, some "EEXIST"⟩) 30
    "EEXIST" (by omega) rfl rfl

/-! ## The pipeline tolerates best-effort failures (C1) -/

/-- C1: whenever project creation, operation completion, Firebase enablement,
web-app registration and config fetch all succeed, the pipeline returns
Success with the assembled configuration, for every possible outcome of the
DatabaseEnabler (enableFirestore) and RulesPublisher (setFirestoreRules)
internals: no error raised inside those two components appears as a pipeline
failure, they only contribute warnings. -/
theorem pipeline_success_despite_best_effort_failures
    (env : Backend.Env) (displayName userId opName : String)
    (op : Backend.Operation) (addResp : Backend.HttpResp)
    (webResp : Backend.WebAppResp) (cfgResp : Backend.ConfigResp)
    (hCreate : env.createProject (Backend.buildCreateBody
        (Backend.generateProjectId userId (Backend.uuidFragment env.uuid))
        displayName env.parentOrganization env.parentFolder) = .ok opName)
    (hWait : (Backend.waitForOperation env.operationStatus 30).result = .ok op)
    (hAdd : env.addFirebase = .ok addResp) (hAddOk : addResp.ok = true)
    (hWeb : env.webAppCreate = .ok webResp) (hWebOk : webResp.ok = true)
    (hCfg : env.configFetch (Backend.lastPathSegment webResp.name) = .ok cfgResp)
    (hCfgOk : cfgResp.ok = true) :
    Backend.createFirebaseProject env displayName userId =
      .ok (⟨Backend.generateProjectId userId (Backend.uuidFragment env.uuid),
            Backend.assembleConfig cfgResp.payload⟩,
           Backend.enableFirestore env.firestore ++
             Backend.setFirestoreRules env.rules) := by
  simp only [Backend.createFirebaseProject, hCreate, hWait, hAdd, hAddOk, hWeb,
    hWebOk, hCfg, hCfgOk, if_true]

def c1Env : Backend.Env :=
  ⟨"9f8a7b6c-1234-5678", none, none,
   fun _ => .ok "operations/cp.1",
   fun _ => ⟨true, none⟩,
   .ok ⟨true, 200, ""⟩,
   .ok ⟨true, "", "projects/blog-u1-9f8a7b6c/webApps/1:23:web:abc"⟩,
   fun _ => .ok ⟨true, "",
     ⟨some "AIzaX", some "blog-u1-9f8a7b6c.firebaseapp.com",
      some "blog-u1-9f8a7b6c", some "blog-u1-9f8a7b6c.appspot.com",
      some "123", some "1:23:web:abc", none⟩⟩,
   ⟨.throw "service enable unavailable", .throw "db create unavailable"⟩,
   ⟨.throw "ruleset service down", .ok ()⟩⟩

theorem pipeline_success_despite_best_effort_failures_witness :
    Backend.createFirebaseProject c1Env "AI Blog - u1" "u1" =
      .ok (⟨"blog-u1-9f8a7b6c",
            ⟨some "AIzaX", some "blog-u1-9f8a7b6c.firebaseapp.com",
             some "blog-u1-9f8a7b6c", some "blog-u1-9f8a7b6c.appspot.com",
             some "123", some "1:23:web:abc", none⟩⟩,
           ["Firestore setup warning: service enable unavailable",
            "Failed to set Firestore rules: ruleset service down"]) :=
  pipeline_success_despite_best_effort_failures c1Env "AI Blog - u1" "u1"
    "operations/cp.1" ⟨true, none⟩ ⟨true, 200, ""⟩
    ⟨true, "", "projects/blog-u1-9f8a7b6c/webApps/1:23:web:abc"⟩
    ⟨true, "",
     ⟨some "AIzaX", some "blog-u1-9f8a7b6c.firebaseapp.com",
      some "blog-u1-9f8a7b6c", some "blog-u1-9f8a7b6c.appspot.com",
      some "123", some "1:23:web:abc", none⟩⟩
    rfl rfl rfl rfl rfl rfl rfl rfl

/-! ## Config-fetch validation (C4) -/

def c4Env : Backend.Env :=
  ⟨"abcd1234-e5f6", none, none,
   fun _ => .ok "operations/cp.2",
   fun _ => ⟨true, none⟩,
   .ok ⟨true, 200, ""⟩,
   .ok ⟨true, "", "projects/p/webApps/app2"⟩,
   fun _ => .ok ⟨true, "",
     ⟨none, some "d.firebaseapp.com", some "blog-u2-abcd1234",
      some "sb.appspot.com", some "123", some "1:2:web:x", none⟩⟩,
   ⟨.ok (), .ok ⟨true, 200, ""⟩⟩,
   ⟨.ok ⟨true, "", "projects/p/rulesets/r1"⟩, .ok ()⟩⟩

/-- C4 counterexample: the web-app config fetch of the pipeline returns HTTP
success with a body lacking apiKey, yet createFirebaseProject performs no
schema validation: it returns Success with the absent field copied into the
result instead of failing with a ConfigFetchError. -/
theorem pipeline_config_fetch_missing_apiKey_still_success :
    c4Env.configFetch "app2" = .ok ⟨true, "",
      ⟨none, some "d.firebaseapp.com", some "blog-u2-abcd1234",
       some "sb.appspot.com", some "123", some "1:2:web:x", none⟩⟩ ∧
    Backend.createFirebaseProject c4Env "AI Blog - u2" "u2" =
      .ok (⟨"blog-u2-abcd1234",
            ⟨none, some "d.firebaseapp.com", some "blog-u2-abcd1234",
             some "sb.appspot.com", some "123", some "1:2:web:x", none⟩⟩, []) :=
  ⟨rfl, rfl⟩

/-- C4 amended: the schema validation described by the claim lives in the CLI
setup tool's getFirebaseConfig, not in the pipeline: after a successful
sdkconfig command, the retrieved payload is returned exactly when apiKey and
projectId are both truthy, and rejected (null) when either is missing. -/
theorem cli_getFirebaseConfig_validates (r : AutoSetupCli.CliResult) :
    AutoSetupCli.getFirebaseConfig (.ok r) =
      (if truthy (AutoSetupCli.unwrapSdkConfig r).apiKey &&
          truthy (AutoSetupCli.unwrapSdkConfig r).projectId
       then some (AutoSetupCli.unwrapSdkConfig r) else none) := by
  cases h1 : truthy (AutoSetupCli.unwrapSdkConfig r).apiKey <;>
    cases h2 : truthy (AutoSetupCli.unwrapSdkConfig r).projectId <;>
      simp [AutoSetupCli.getFirebaseConfig, h1, h2]

/-! ## Project-identifier naming constraints (C5) -/

/-- C5 counterexample: the requesterId the client itself generates and which
the boundary accepts produces a project identifier containing underscores,
violating the lowercase-alphanumeric-and-hyphen charset constraint. -/
theorem generated_projectId_charset_violation :
    Backend.userIdAccepted (SetupService.generateUserId 1735689600000 "k3j9q0d1z")
      = true ∧
    Backend.projectIdCharsetOk
      (Backend.generateProjectId
        (SetupService.generateUserId 1735689600000 "k3j9q0d1z")
        (Backend.uuidFragment "9f8a7b6c-1234-5678-9abc-def012345678")) = false := by
  constructor
  · rfl
  · decide

/-- C5 amended: the generator concatenates the fixed prefix, the requesterId
and the random token verbatim, with no sanitization and no truncation; hence
the platform charset constraint holds exactly when the requesterId and token
themselves satisfy it, and the length is requesterId.length + token.length + 6
(unbounded in the requesterId). -/
theorem generateProjectId_charset_and_length (userId tok : String)
    (hu : userId.data.all Backend.isProjectIdChar = true)
    (ht : tok.data.all Backend.isProjectIdChar = true) :
    Backend.projectIdCharsetOk (Backend.generateProjectId userId tok) = true ∧
    (Backend.generateProjectId userId tok).length =
      userId.length + tok.length + 6 := by
  constructor
  · simp only [Backend.projectIdCharsetOk, Backend.generateProjectId,
      String.data_append, List.all_append, hu, ht]
    decide
  · simp only [Backend.generateProjectId, String.length_append]
    have h5 : ("blog-" : String).length = 5 := rfl
    have h1 : ("-" : String).length = 1 := rfl
    omega

theorem generateProjectId_charset_and_length_witness :
    Backend.projectIdCharsetOk (Backend.generateProjectId "u1" "abc12") = true ∧
    (Backend.generateProjectId "u1" "abc12").length = 2 + 5 + 6 :=
  generateProjectId_charset_and_length "u1" "abc12" (by decide) (by decide)

/-! ## Parent placement of the create request (C6) -/

/-- C6 counterexample: with both a parent organization and a parent folder
configured, the submitted create body is scoped under the folder (the later
object spread overwrites the earlier), not under the organization as the
claim states. -/
theorem buildCreateBody_both_parents_folder_wins :
    (Backend.buildCreateBody "blog-u3-aaaa1111" "Blog" (some "org-42")
        (some "folder-77")).parent = some ⟨"folder", "folder-77"⟩ ∧
    (Backend.buildCreateBody "blog-u3-aaaa1111" "Blog" (some "org-42")
        (some "folder-77")).parent ≠ some ⟨"organization", "org-42"⟩ := by
  constructor
  · rfl
  · decide

/-- C6 amended: whenever a non-empty parent folder is configured, the create
request is scoped under that folder regardless of any configured parent
organization: the folder spread comes second and overwrites the organization
spread. -/
theorem buildCreateBody_folder_precedence (projectId name folder : String)
    (parentOrganization : Option String) (hf : folder ≠ "") :
    (Backend.buildCreateBody projectId name parentOrganization
        (some folder)).parent = some ⟨"folder", folder⟩ := by
  simp [Backend.buildCreateBody, hf]

theorem buildCreateBody_folder_precedence_witness :
    (Backend.buildCreateBody "p1" "n1" (some "o1") (some "f1")).parent =
      some ⟨"folder", "f1"⟩ :=
  buildCreateBody_folder_precedence "p1" "n1" "f1" (some "o1") (by decide)

/-! ## Configuration resolution precedence (C7, C10) -/

/-- C7: the environment configuration strictly dominates whenever its apiKey
is truthy (non-empty), regardless of client storage; otherwise the persisted
record is returned exactly when its apiKey, projectId and authDomain are all
truthy, and the resolver returns none in every other case (no entry, corrupt
entry, or invalid record). -/
theorem getFirebaseConfig_precedence (env : SetupService.EnvVars)
    (st : SetupService.StorageState) :
    (truthy env.apiKey = true →
      SetupService.getFirebaseConfig env st =
        some (SetupService.mkEnvConfig env, .environment)) ∧
    (truthy env.apiKey = false →
      (∀ r, st = .stored r →
        SetupService.getFirebaseConfig env st =
          (if truthy r.apiKey && truthy r.projectId && truthy r.authDomain
           then some (r, .persistedClientStore) else none)) ∧
      (st = .absent → SetupService.getFirebaseConfig env st = none) ∧
      (st = .corrupt → SetupService.getFirebaseConfig env st = none)) := by
  refine ⟨fun h => ?_, fun h => ⟨fun r hr => ?_, fun h2 => ?_, fun h2 => ?_⟩⟩
  · simp [SetupService.getFirebaseConfig, h]
  · subst hr
    cases hc : truthy r.apiKey && truthy r.projectId && truthy r.authDomain <;>
      simp [SetupService.getFirebaseConfig, SetupService.getStoredFirebaseConfig,
        h, hc]
  · subst h2
    simp [SetupService.getFirebaseConfig, SetupService.getStoredFirebaseConfig, h]
  · subst h2
    simp [SetupService.getFirebaseConfig, SetupService.getStoredFirebaseConfig, h]

theorem getFirebaseConfig_precedence_witness :
    SetupService.getFirebaseConfig
        ⟨some "envKey", none, none, none, none, none, none⟩
        (.stored ⟨some "sk", some "sa", some "sp", some "ss", some "sm",
          some "si", none⟩) =
      some (SetupService.mkEnvConfig
        ⟨some "envKey", none, none, none, none, none, none⟩, .environment) :=
  (getFirebaseConfig_precedence
    ⟨some "envKey", none, none, none, none, none, none⟩
    (.stored ⟨some "sk", some "sa", some "sp", some "ss", some "sm",
      some "si", none⟩)).1 rfl

/-- C10: on the environment tier the resolver checks only that the
environment apiKey is truthy and copies every other field verbatim with no
validation (so the environment-tagged result may lack authDomain, projectId,
or any other mandatory field), while a persisted-tier result is returned only
when its apiKey, projectId and authDomain are all truthy. -/
theorem environment_tier_unvalidated (env : SetupService.EnvVars)
    (st : SetupService.StorageState) :
    ((SetupService.mkEnvConfig env).apiKey = env.apiKey ∧
     (SetupService.mkEnvConfig env).authDomain = env.authDomain ∧
     (SetupService.mkEnvConfig env).projectId = env.projectId ∧
     (SetupService.mkEnvConfig env).storageBucket = env.storageBucket ∧
     (SetupService.mkEnvConfig env).messagingSenderId = env.messagingSenderId ∧
     (SetupService.mkEnvConfig env).appId = env.appId ∧
     (SetupService.mkEnvConfig env).measurementId = env.measurementId) ∧
    (truthy env.apiKey = true →
      SetupService.getFirebaseConfig env st =
        some (SetupService.mkEnvConfig env, .environment)) ∧
    (∀ r, SetupService.getFirebaseConfig env st =
        some (r, .persistedClientStore) →
      truthy r.apiKey = true ∧ truthy r.projectId = true ∧
        truthy r.authDomain = true) := by
  refine ⟨⟨rfl, rfl, rfl, rfl, rfl, rfl, rfl⟩, fun h => ?_, fun r hr => ?_⟩
  · simp [SetupService.getFirebaseConfig, h]
  · by_cases h : truthy env.apiKey = true
    · simp [SetupService.getFirebaseConfig, h] at hr
    · rw [Bool.not_eq_true] at h
      cases st with
      | absent =>
        simp [SetupService.getFirebaseConfig,
          SetupService.getStoredFirebaseConfig, h] at hr
      | corrupt =>
        simp [SetupService.getFirebaseConfig,
          SetupService.getStoredFirebaseConfig, h] at hr
      | stored s =>
        cases hc : truthy s.apiKey && truthy s.projectId && truthy s.authDomain
        · simp [SetupService.getFirebaseConfig,
            SetupService.getStoredFirebaseConfig, h, hc] at hr
        · simp [SetupService.getFirebaseConfig,
            SetupService.getStoredFirebaseConfig, h, hc] at hr
          simp only [Bool.and_eq_true] at hc
          cases hr
          exact ⟨hc.1.1, hc.1.2, hc.2⟩

theorem environment_tier_unvalidated_witness :
    SetupService.getFirebaseConfig
        ⟨some "k2", none, none, none, none, none, none⟩ .absent =
      some (SetupService.mkEnvConfig
        ⟨some "k2", none, none, none, none, none, none⟩, .environment) ∧
    (SetupService.mkEnvConfig
        ⟨some "k2", none, none, none, none, none, none⟩).authDomain = none :=
  ⟨(environment_tier_unvalidated
      ⟨some "k2", none, none, none, none, none, none⟩ .absent).2.1 rfl,
   ((environment_tier_unvalidated
      ⟨some "k2", none, none, none, none, none, none⟩ .absent).1.2.1).trans rfl⟩

theorem cli_getFirebaseConfig_validates_witness :
    AutoSetupCli.getFirebaseConfig
        (.ok ⟨some ⟨none, some "p1", some "a", some "s", some "m", some "i", none⟩,
              none, ⟨none, none, none, none, none, none, none⟩⟩) = none :=
  cli_getFirebaseConfig_validates
    ⟨some ⟨none, some "p1", some "a", some "s", some "m", some "i", none⟩,
     none, ⟨none, none, none, none, none, none, none⟩⟩

/-! ## Normalizer missing-field reporting (C8) -/

/-- C8: when the parsed record is missing one or more mandatory fields, the
normalizer fails with a missing-fields error naming the full filtered list of
required fields that are not truthy — every missing field is named, not just
the first; in particular the claim's concrete input names exactly
authDomain, storageBucket, appId, in required-field order. -/
theorem normalize_missing_fields_all_named :
    (∀ (members : List (String × Normalizer.Json)),
      Normalizer.requiredFields.filter
          (fun f => !Normalizer.jsonTruthy (Normalizer.objGet members f)) ≠ [] →
      Normalizer.validateMembers members =
        .error (.missingFields (Normalizer.requiredFields.filter
          (fun f => !Normalizer.jsonTruthy (Normalizer.objGet members f)))) ∧
      ∀ f ∈ Normalizer.requiredFields,
        Normalizer.jsonTruthy (Normalizer.objGet members f) = false →
        f ∈ Normalizer.requiredFields.filter
          (fun f => !Normalizer.jsonTruthy (Normalizer.objGet members f))) ∧
    Normalizer.normalize "\x7b\"apiKey\":\"X\",\"projectId\":\"p\"\x7d" =
      .error (.missingFields ["authDomain", "storageBucket", "appId"]) := by
  constructor
  · intro members hne
    constructor
    · simp only [Normalizer.validateMembers]
      rw [if_neg hne]
    · intro f hf hmiss
      simp [List.mem_filter, hf, hmiss]
  · rfl

theorem normalize_missing_fields_all_named_witness :
    Normalizer.validateMembers [("apiKey", .str "X")] =
      .error (.missingFields
        ["authDomain", "projectId", "storageBucket", "appId"]) :=
  (normalize_missing_fields_all_named.1 [("apiKey", .str "X")] (by decide)).1

/-! ## Normalizer idempotence (C9) -/

/-- C9 counterexample: this input normalizes successfully to a record whose
apiKey value contains a double slash (reached through the \/ JSON escape),
but normalizing the strict-JSON serialization of that very record fails with
a syntax error, because line-comment stripping deletes everything from the
serialized double slash to the end of the text.  Normalize is therefore not
idempotent on its own output. -/
theorem normalize_not_idempotent :
    Normalizer.normalize
        "\x7b\"apiKey\":\"a\\/\\/b\",\"authDomain\":\"d\",\"projectId\":\"p\",\"storageBucket\":\"s\",\"appId\":\"i\"\x7d" =
      .ok (Normalizer.ofStrConfig ⟨"a//b", "d", "p", "s", "", "i", none⟩) ∧
    Normalizer.normalize
        (Normalizer.stringifyStrConfig ⟨"a//b", "d", "p", "s", "", "i", none⟩) =
      .error .malformed :=
  ⟨rfl, rfl⟩

namespace Normalizer

theorem safeChar_spec (c : Char) (h : safeChar c = true) :
    32 ≤ c.toNat ∧ c ≠ '"' ∧ c ≠ '\\' ∧ c ≠ '/' ∧ c ≠ '\x7b' ∧ c ≠ '\x7d' ∧
    c ≠ '[' ∧ c ≠ ']' ∧ c ≠ ',' ∧ c ≠ ':' := by
  simp only [safeChar, Bool.and_eq_true, decide_eq_true_eq] at h
  tauto

theorem escapeJsonChar_safe (c : Char) (h : safeChar c = true) :
    escapeJsonChar c = [c] := by
  obtain ⟨h32, hq, hbs, -⟩ := safeChar_spec c h
  have hn : c ≠ '\n' := by intro e; rw [e] at h32; exact absurd h32 (by decide)
  have hr : c ≠ '\r' := by intro e; rw [e] at h32; exact absurd h32 (by decide)
  have ht : c ≠ '\t' := by intro e; rw [e] at h32; exact absurd h32 (by decide)
  have h8 : c ≠ Char.ofNat 8 := by
    intro e; rw [e] at h32; exact absurd h32 (by decide)
  have h12 : c ≠ Char.ofNat 12 := by
    intro e; rw [e] at h32; exact absurd h32 (by decide)
  unfold escapeJsonChar
  rw [if_neg hq, if_neg hbs, if_neg hn, if_neg hr, if_neg ht, if_neg h8,
    if_neg h12, if_neg (by omega)]

theorem concatMap_escape_safe (v : List Char) (h : ∀ c ∈ v, safeChar c = true) :
    concatMap escapeJsonChar v = v := by
  induction v with
  | nil => rfl
  | cons c rest ih =>
    simp only [concatMap]
    rw [escapeJsonChar_safe c (h c (by simp)),
      ih (fun x hx => h x (by simp [hx]))]
    rfl

theorem quoteJson_safe (s : String) (h : safeStr s = true) :
    quoteJson s = '"' :: (s.data ++ ['"']) := by
  simp only [safeStr, List.all_eq_true] at h
  rw [quoteJson, concatMap_escape_safe s.data h]

end Normalizer

namespace Normalizer

theorem mem_memberChars (kv : String × String)
    (hk : ∀ c ∈ kv.1.data, safeChar c = true)
    (hv : ∀ c ∈ kv.2.data, safeChar c = true) :
    ∀ c ∈ memberChars kv, safeChar c = true ∨ c = '"' ∨ c = ':' := by
  intro c hc
  rw [memberChars, quoteJson_safe kv.1 (by simp [safeStr, List.all_eq_true]; exact hk),
    quoteJson_safe kv.2 (by simp [safeStr, List.all_eq_true]; exact hv)] at hc
  have hd : c = '"' ∨ c = ':' ∨ c ∈ kv.1.data ∨ c ∈ kv.2.data := by
    revert hc
    simp only [List.mem_append, List.mem_cons, List.mem_singleton,
      List.not_mem_nil, or_false]
    tauto
  rcases hd with rfl | rfl | hd | hd
  · right; left; rfl
  · right; right; rfl
  · exact .inl (hk c hd)
  · exact .inl (hv c hd)

theorem mem_membersChars (ms : List (String × String)) :
    ∀ c ∈ membersChars ms, c = ',' ∨ ∃ kv ∈ ms, c ∈ memberChars kv := by
  induction ms with
  | nil => simp [membersChars]
  | cons kv rest ih =>
    cases rest with
    | nil =>
      intro c hc
      rw [membersChars] at hc
      exact .inr ⟨kv, by simp, hc⟩
    | cons kv2 rest2 =>
      intro c hc
      rw [show membersChars (kv :: kv2 :: rest2) =
          memberChars kv ++ (',' :: membersChars (kv2 :: rest2)) from rfl] at hc
      simp only [List.mem_append, List.mem_cons] at hc
      rcases hc with hc | rfl | hc
      · exact .inr ⟨kv, by simp, hc⟩
      · exact .inl rfl
      · rcases ih c hc with h | ⟨kv3, hm, hmm⟩
        · exact .inl h
        · exact .inr ⟨kv3, by simp [hm], hmm⟩

end Normalizer

namespace Normalizer

theorem serial_no_slash (ms : List (String × String))
    (hms : ∀ kv ∈ ms, (∀ c ∈ (kv.1 : String).data, safeChar c = true) ∧
      (∀ c ∈ (kv.2 : String).data, safeChar c = true)) :
    ∀ c ∈ '\x7b' :: (membersChars ms ++ ['\x7d']), c ≠ '/' := by
  intro c hc
  simp only [List.mem_cons, List.mem_append, List.mem_singleton,
    List.not_mem_nil, or_false] at hc
  rcases hc with rfl | hc | rfl
  · decide
  · rcases mem_membersChars ms c hc with rfl | ⟨kv, hkv, hmem⟩
    · decide
    · rcases mem_memberChars kv (hms kv hkv).1 (hms kv hkv).2 c hmem with hs | rfl | rfl
      · exact (safeChar_spec c hs).2.2.2.1
      · decide
      · decide
  · decide

theorem trimChars_of_ends (a b : Char) (mid : Chars)
    (ha : isWsChar a = false) (hb : isWsChar b = false) :
    trimChars (a :: (mid ++ [b])) = a :: (mid ++ [b]) := by
  unfold trimChars
  rw [List.dropWhile_cons, if_neg (by simp [ha])]
  rw [show (a :: (mid ++ [b])).reverse = b :: (mid.reverse ++ [a]) by simp]
  rw [List.dropWhile_cons, if_neg (by simp [hb])]
  simp

theorem stripLineCommentsGo_no_slash (cs : Chars) (h : ∀ c ∈ cs, c ≠ '/') :
    ∀ fuel, stripLineCommentsGo fuel false cs = cs := by
  induction cs with
  | nil => intro fuel; cases fuel <;> rfl
  | cons c rest ih =>
    intro fuel
    cases fuel with
    | zero => rfl
    | succ n =>
      have hc : ¬(c = '/') := h c (by simp)
      simp only [stripLineCommentsGo, if_neg hc]
      rw [ih (fun x hx => h x (by simp [hx])) n]

theorem stripLineComments_no_slash (cs : Chars) (h : ∀ c ∈ cs, c ≠ '/') :
    stripLineComments cs = cs :=
  stripLineCommentsGo_no_slash cs h cs.length

theorem stripBlockCommentsGo_no_slash (cs : Chars) (h : ∀ c ∈ cs, c ≠ '/') :
    ∀ fuel, stripBlockCommentsGo fuel cs = cs := by
  induction cs with
  | nil => intro fuel; cases fuel <;> rfl
  | cons c rest ih =>
    intro fuel
    cases fuel with
    | zero => rfl
    | succ n =>
      have hc : ¬(c = '/') := h c (by simp)
      simp only [stripBlockCommentsGo, if_neg hc]
      rw [ih (fun x hx => h x (by simp [hx])) n]

theorem stripBlockComments_no_slash (cs : Chars) (h : ∀ c ∈ cs, c ≠ '/') :
    stripBlockComments cs = cs :=
  stripBlockCommentsGo_no_slash cs h cs.length

theorem extractObject_of_shape (mid : Chars) :
    extractObject ('\x7b' :: (mid ++ ['\x7d'])) = '\x7b' :: (mid ++ ['\x7d']) := by
  have h1 : (('\x7b' :: (mid ++ ['\x7d'])) : Chars).dropWhile
      (fun c => c ≠ '\x7b') = '\x7b' :: (mid ++ ['\x7d']) := by
    rw [List.dropWhile_cons, if_neg (by simp)]
  simp only [extractObject, h1]
  rw [if_pos (by simp [List.elem_eq_mem])]
  rw [show (('\x7b' :: (mid ++ ['\x7d'])) : Chars).reverse =
      '\x7d' :: (mid.reverse ++ ['\x7b']) by simp]
  rw [List.dropWhile_cons, if_neg (by simp)]
  simp

end Normalizer

namespace Normalizer

theorem declStrip_brace (rest : Chars) :
    declStrip ('\x7b' :: rest) = '\x7b' :: rest := by
  simp [declStrip, matchDeclTail, dropLiteral]

theorem stripSemiSuffix_of_end (mid : Chars) (b : Char)
    (hb1 : isWsChar b = false) (hb2 : b ≠ ';') :
    stripSemiSuffix (mid ++ [b]) = mid ++ [b] := by
  have h1 : ((mid ++ [b] : Chars)).reverse.dropWhile isWsChar =
      b :: mid.reverse := by
    rw [show ((mid ++ [b] : Chars)).reverse = b :: mid.reverse by simp]
    rw [List.dropWhile_cons, if_neg (by simp [hb1])]
  simp only [stripSemiSuffix, h1]
  split
  · next heq =>
    rw [List.cons.injEq] at heq
    exact absurd heq.1 hb2
  · rfl

theorem structOk_append_inert (a : Chars)
    (ha : ∀ c ∈ a, c ≠ '\x7b' ∧ c ≠ ',') (b : Chars) :
    structOk (a ++ b) = structOk b := by
  induction a with
  | nil => rfl
  | cons c rest ih =>
    have hc := ha c (by simp)
    simp only [List.cons_append, structOk,
      if_neg (by simp [hc.1, hc.2] : ¬((c = '\x7b' || c = ',') = true))]
    exact ih (fun x hx => ha x (by simp [hx]))

theorem structOk_brace_quote (r : Chars) :
    structOk ('\x7b' :: '"' :: r) = structOk ('"' :: r) := by
  simp [structOk]

theorem structOk_comma_quote (r : Chars) :
    structOk (',' :: '"' :: r) = structOk ('"' :: r) := by
  simp [structOk]

theorem memberChars_head (kv : String × String) :
    ∃ t, memberChars kv = '"' :: t := by
  refine ⟨_, rfl⟩

theorem membersChars_cons_head (kv : String × String)
    (ms : List (String × String)) :
    ∃ t, membersChars (kv :: ms) = '"' :: t := by
  cases ms with
  | nil => exact ⟨_, rfl⟩
  | cons kv2 rest => exact ⟨_, rfl⟩

theorem memberChars_inert (kv : String × String)
    (hk : ∀ c ∈ kv.1.data, safeChar c = true)
    (hv : ∀ c ∈ kv.2.data, safeChar c = true) :
    ∀ c ∈ memberChars kv, c ≠ '\x7b' ∧ c ≠ ',' := by
  intro c hc
  rcases mem_memberChars kv hk hv c hc with hs | rfl | rfl
  · have := safeChar_spec c hs
    exact ⟨this.2.2.2.2.1, this.2.2.2.2.2.2.2.2.1⟩
  · exact ⟨by decide, by decide⟩
  · exact ⟨by decide, by decide⟩

theorem structOk_membersChars (ms : List (String × String))
    (hms : ∀ kv ∈ ms, (∀ c ∈ (kv.1 : String).data, safeChar c = true) ∧
      (∀ c ∈ (kv.2 : String).data, safeChar c = true)) :
    ∀ r, structOk r = true → structOk (membersChars ms ++ r) = true := by
  induction ms with
  | nil => intro r hr; simpa [membersChars]
  | cons kv rest ih =>
    intro r hr
    have hkv := hms kv (by simp)
    cases rest with
    | nil =>
      rw [show membersChars [kv] = memberChars kv from rfl,
        structOk_append_inert (memberChars kv) (memberChars_inert kv hkv.1 hkv.2)]
      exact hr
    | cons kv2 rest2 =>
      rw [show membersChars (kv :: kv2 :: rest2) =
        memberChars kv ++ (',' :: membersChars (kv2 :: rest2)) from rfl]
      rw [List.append_assoc,
        structOk_append_inert (memberChars kv) (memberChars_inert kv hkv.1 hkv.2)]
      obtain ⟨t, ht⟩ := membersChars_cons_head kv2 rest2
      rw [List.cons_append, ht, List.cons_append, structOk_comma_quote]
      rw [show ('"' :: (t ++ r) : Chars) = ('"' :: t) ++ r from rfl, ← ht]
      exact ih (fun x hx => hms x (by simp [hx])) r hr

end Normalizer

namespace Normalizer

theorem tryKeyMatch_quote (r : Chars) : tryKeyMatch ('"' :: r) = none := by
  have h1 : isWsChar '"' = false := rfl
  have h2 : isWordChar '"' = false := rfl
  simp [tryKeyMatch, List.takeWhile_cons, List.dropWhile_cons, h1, h2]

theorem structOk_cons_elim (c : Char) (rest : Chars)
    (h : structOk (c :: rest) = true) :
    structOk rest = true ∧
      ((c = '\x7b' || c = ',') = true → ∃ r2, rest = '"' :: r2) := by
  by_cases hc : (c = '\x7b' || c = ',') = true
  · rw [structOk, if_pos hc, Bool.and_eq_true] at h
    refine ⟨h.2, fun _ => ?_⟩
    cases rest with
    | nil => simp at h
    | cons c2 r2 =>
      have : c2 = '"' := by
        have := h.1
        simp [List.head?] at this
        exact this
      exact ⟨r2, by rw [this]⟩
  · rw [structOk, if_neg hc] at h
    exact ⟨h, fun hcc => absurd hcc hc⟩

theorem quoteKeysGo_structOk (cs : Chars) (h : structOk cs = true) :
    ∀ fuel, quoteKeysGo fuel cs = cs := by
  induction cs with
  | nil => intro fuel; cases fuel <;> rfl
  | cons c rest ih =>
    intro fuel
    cases fuel with
    | zero => rfl
    | succ n =>
      obtain ⟨hrest, hquote⟩ := structOk_cons_elim c rest h
      by_cases hc : (c = '\x7b' || c = ',') = true
      · obtain ⟨r2, rfl⟩ := hquote hc
        simp only [quoteKeysGo, if_pos hc, tryKeyMatch_quote]
        rw [ih hrest n]
      · simp only [quoteKeysGo, if_neg hc]
        rw [ih hrest n]

theorem quoteKeys_structOk (cs : Chars) (h : structOk cs = true) :
    quoteKeys cs = cs :=
  quoteKeysGo_structOk cs h cs.length

theorem removeTrailingCommasGo_structOk (cs : Chars) (h : structOk cs = true) :
    ∀ fuel, removeTrailingCommasGo fuel cs = cs := by
  induction cs with
  | nil => intro fuel; cases fuel <;> rfl
  | cons c rest ih =>
    intro fuel
    cases fuel with
    | zero => rfl
    | succ n =>
      obtain ⟨hrest, hquote⟩ := structOk_cons_elim c rest h
      by_cases hc : c = ','
      · subst hc
        obtain ⟨r2, rfl⟩ := hquote (by simp)
        rw [show removeTrailingCommasGo (n + 1) (',' :: '"' :: r2) =
            ',' :: removeTrailingCommasGo n ('"' :: r2) from by
          have h1 : isWsChar '"' = false := rfl
          simp [removeTrailingCommasGo, List.dropWhile_cons, h1]]
        rw [ih hrest n]
      · simp only [removeTrailingCommasGo, if_neg hc]
        rw [ih hrest n]

theorem removeTrailingCommas_structOk (cs : Chars) (h : structOk cs = true) :
    removeTrailingCommas cs = cs :=
  removeTrailingCommasGo_structOk cs h cs.length

end Normalizer

namespace Normalizer

theorem parseStringBody_cons_plain (c : Char) (rest : Chars) (n : Nat)
    (hq : ¬(c = '"')) (hbs : ¬(c = '\\')) (h32 : ¬(c.toNat < 32)) :
    parseStringBody (n + 1) (c :: rest) =
      (match parseStringBody n rest with
       | some (s, r) => some (c :: s, r)
       | none => none) := by
  simp only [parseStringBody, if_neg hq, if_neg hbs, if_neg h32]

theorem parseStringBody_safe (v : Chars) (hv : ∀ c ∈ v, safeChar c = true) :
    ∀ (fuel : Nat) (r : Chars), v.length + 1 ≤ fuel →
      parseStringBody fuel (v ++ ('"' :: r)) = some (v, r) := by
  induction v with
  | nil =>
    intro fuel r hf
    cases fuel with
    | zero => omega
    | succ n => simp [parseStringBody]
  | cons c rest ih =>
    intro fuel r hf
    cases fuel with
    | zero => simp at hf
    | succ n =>
      obtain ⟨h32, hq, hbs, -⟩ := safeChar_spec c (hv c (by simp))
      rw [List.cons_append,
        parseStringBody_cons_plain c (rest ++ ('"' :: r)) n hq hbs (by omega)]
      rw [ih (fun x hx => hv x (by simp [hx])) n r (by simp at hf ⊢; omega)]

theorem skipWsJson_cons (c : Char) (r : Chars) (h : isWsChar c = false) :
    skipWsJson (c :: r) = c :: r := by
  rw [skipWsJson, List.dropWhile_cons, if_neg (by simp [h])]

theorem parseJ_value_str (v : Chars) (hv : ∀ c ∈ v, safeChar c = true)
    (fuel : Nat) (r : Chars) (hf : 1 ≤ fuel) :
    parseJ fuel .value ('"' :: (v ++ ('"' :: r))) =
      some (Json.str (String.mk v), r) := by
  cases fuel with
  | zero => omega
  | succ n =>
    have h1 : skipWsJson ('"' :: (v ++ ('"' :: r))) = '"' :: (v ++ ('"' :: r)) :=
      skipWsJson_cons '"' (v ++ ('"' :: r)) rfl
    simp only [parseJ, h1]
    rw [parseStringBody_safe v hv (v ++ ('"' :: r)).length r
      (by simp [List.length_append])]

end Normalizer

namespace Normalizer

theorem memberChars_append (kv : String × String) (t : Chars)
    (hk : safeStr kv.1 = true) (hv : safeStr kv.2 = true) :
    memberChars kv ++ t =
      '"' :: (kv.1.data ++ ('"' :: (':' :: ('"' :: (kv.2.data ++ ('"' :: t)))))) := by
  rw [memberChars, quoteJson_safe _ hk, quoteJson_safe _ hv]
  simp

theorem parseJ_member_step (kv : String × String) (t : Chars)
    (hk : safeStr kv.1 = true) (hv : safeStr kv.2 = true)
    (first : Bool) (acc : List (String × Json)) (fuel : Nat) (hf : 1 ≤ fuel) :
    parseJ (fuel + 1) (.members first acc) (memberChars kv ++ t) =
      (match skipWsJson t with
       | ',' :: r5 =>
         parseJ fuel (.members false (acc ++ [(kv.1, Json.str kv.2)])) r5
       | '\x7d' :: r5 => some (Json.obj (acc ++ [(kv.1, Json.str kv.2)]), r5)
       | _ => none) := by
  rw [memberChars_append kv t hk hv]
  have hkd : ∀ c ∈ kv.1.data, safeChar c = true := by
    simpa [safeStr, List.all_eq_true] using hk
  have hvd : ∀ c ∈ kv.2.data, safeChar c = true := by
    simpa [safeStr, List.all_eq_true] using hv
  have hsk1 : skipWsJson
      ('"' :: (kv.1.data ++ ('"' :: (':' :: ('"' :: (kv.2.data ++ ('"' :: t))))))) =
      '"' :: (kv.1.data ++ ('"' :: (':' :: ('"' :: (kv.2.data ++ ('"' :: t)))))) :=
    skipWsJson_cons _ _ rfl
  have hpsb : parseStringBody
      (kv.1.data ++ ('"' :: (':' :: ('"' :: (kv.2.data ++ ('"' :: t)))))).length
      (kv.1.data ++ ('"' :: (':' :: ('"' :: (kv.2.data ++ ('"' :: t)))))) =
      some (kv.1.data, ':' :: ('"' :: (kv.2.data ++ ('"' :: t)))) :=
    parseStringBody_safe kv.1.data hkd _ _ (by simp [List.length_append])
  have hsk2 : skipWsJson (':' :: ('"' :: (kv.2.data ++ ('"' :: t)))) =
      ':' :: ('"' :: (kv.2.data ++ ('"' :: t))) :=
    skipWsJson_cons _ _ rfl
  have hval : parseJ fuel .value ('"' :: (kv.2.data ++ ('"' :: t))) =
      some (Json.str (String.mk kv.2.data), t) :=
    parseJ_value_str kv.2.data hvd fuel t hf
  have hmk1 : String.mk kv.1.data = kv.1 := rfl
  have hmk2 : String.mk kv.2.data = kv.2 := rfl
  simp only [parseJ, hsk1, hpsb, hsk2, hval, hmk1, hmk2]

end Normalizer

namespace Normalizer

theorem parseJ_members_list (ms : List (String × String))
    (hms : ∀ kv ∈ ms, safeStr kv.1 = true ∧ safeStr kv.2 = true) :
    ms ≠ [] →
    ∀ (first : Bool) (acc : List (String × Json)) (fuel : Nat) (r : Chars),
      2 * ms.length + 1 ≤ fuel →
      parseJ fuel (.members first acc) (membersChars ms ++ ('\x7d' :: r)) =
        some (Json.obj (acc ++ ms.map (fun kv => (kv.1, Json.str kv.2))), r) := by
  induction ms with
  | nil => intro h; exact absurd rfl h
  | cons kv rest ih =>
    intro _ first acc fuel r hf
    have hkv := hms kv (by simp)
    cases fuel with
    | zero => omega
    | succ n =>
    cases rest with
    | nil =>
      rw [show membersChars [kv] = memberChars kv from rfl]
      rw [parseJ_member_step kv ('\x7d' :: r) hkv.1 hkv.2 first acc n
        (by simp at hf; omega)]
      rw [skipWsJson_cons '\x7d' r rfl]
      show some (Json.obj (acc ++ [(kv.1, Json.str kv.2)]), r) = _
      simp
    | cons kv2 rest2 =>
      rw [show membersChars (kv :: kv2 :: rest2) =
        memberChars kv ++ (',' :: membersChars (kv2 :: rest2)) from rfl]
      rw [List.append_assoc, List.cons_append]
      rw [parseJ_member_step kv (',' :: (membersChars (kv2 :: rest2) ++ ('\x7d' :: r)))
        hkv.1 hkv.2 first acc n (by simp at hf; omega)]
      rw [skipWsJson_cons ',' (membersChars (kv2 :: rest2) ++ ('\x7d' :: r)) rfl]
      show parseJ n (.members false (acc ++ [(kv.1, Json.str kv.2)]))
          (membersChars (kv2 :: rest2) ++ ('\x7d' :: r)) = _
      rw [ih (fun x hx => hms x (by simp [hx])) (by simp) false
        (acc ++ [(kv.1, Json.str kv.2)]) n r (by simp at hf ⊢; omega)]
      simp

end Normalizer

namespace Normalizer

theorem membersChars_length (ms : List (String × String)) :
    ms.length ≤ (membersChars ms).length := by
  induction ms with
  | nil => simp [membersChars]
  | cons kv rest ih =>
    cases rest with
    | nil => simp [membersChars, memberChars, quoteJson]
    | cons kv2 rest2 =>
      rw [show membersChars (kv :: kv2 :: rest2) =
        memberChars kv ++ (',' :: membersChars (kv2 :: rest2)) from rfl]
      simp only [List.length_append, List.length_cons]
      simp only [List.length_cons] at ih ⊢
      omega

theorem parseJ_value_obj (rest : Chars) (n : Nat) :
    parseJ (n + 1) .value ('\x7b' :: rest) = parseJ n (.members true []) rest := by
  simp only [parseJ, skipWsJson_cons '\x7b' rest rfl]

theorem parseJsonText_serialized (ms : List (String × String))
    (hms : ∀ kv ∈ ms, safeStr kv.1 = true ∧ safeStr kv.2 = true)
    (hne : ms ≠ []) :
    parseJsonText (String.mk ('\x7b' :: (membersChars ms ++ ['\x7d']))) =
      some (Json.obj (ms.map (fun kv => (kv.1, Json.str kv.2)))) := by
  have hlen := membersChars_length ms
  rw [parseJsonText]
  rw [show (String.mk ('\x7b' :: (membersChars ms ++ ['\x7d']))).data =
    '\x7b' :: (membersChars ms ++ ['\x7d']) from rfl]
  rw [show 2 * ('\x7b' :: (membersChars ms ++ ['\x7d'])).length + 8 =
    (2 * ('\x7b' :: (membersChars ms ++ ['\x7d'])).length + 7) + 1 from rfl]
  rw [parseJ_value_obj]
  rw [parseJ_members_list ms hms hne true []
    (2 * ('\x7b' :: (membersChars ms ++ ['\x7d'])).length + 7) []
    (by simp only [List.length_cons, List.length_append, List.length_singleton]; omega)]
  show (if skipWsJson [] = [] then
    some (Json.obj ([] ++ ms.map (fun kv => (kv.1, Json.str kv.2)))) else none) = _
  simp [skipWsJson]

end Normalizer

namespace Normalizer

theorem preprocess_serialized (ms : List (String × String))
    (hsafe : ∀ kv ∈ ms, (∀ c ∈ (kv.1 : String).data, safeChar c = true) ∧
      (∀ c ∈ (kv.2 : String).data, safeChar c = true))
    (hne : ms ≠ []) :
    preprocess ('\x7b' :: (membersChars ms ++ ['\x7d'])) =
      '\x7b' :: (membersChars ms ++ ['\x7d']) := by
  have hnos : ∀ c ∈ '\x7b' :: (membersChars ms ++ ['\x7d']), c ≠ '/' :=
    serial_no_slash ms hsafe
  have hso : structOk ('\x7b' :: (membersChars ms ++ ['\x7d'])) = true := by
    obtain ⟨kv1, ms', rfl⟩ : ∃ kv1 ms', ms = kv1 :: ms' := by
      cases ms with
      | nil => exact absurd rfl hne
      | cons kv1 ms' => exact ⟨kv1, ms', rfl⟩
    obtain ⟨t, ht⟩ := membersChars_cons_head kv1 ms'
    rw [ht, List.cons_append, structOk_brace_quote]
    rw [show ('"' :: (t ++ ['\x7d']) : Chars) = ('"' :: t) ++ ['\x7d'] from rfl,
      ← ht]
    exact structOk_membersChars _ hsafe ['\x7d'] rfl
  rw [preprocess]
  rw [stripLineComments_no_slash _ hnos]
  rw [stripBlockComments_no_slash _ hnos]
  rw [extractObject_of_shape]
  rw [declStrip_brace]
  rw [show ('\x7b' :: (membersChars ms ++ ['\x7d']) : Chars) =
    ('\x7b' :: membersChars ms) ++ ['\x7d'] from rfl]
  rw [stripSemiSuffix_of_end ('\x7b' :: membersChars ms) '\x7d' rfl (by decide)]
  rw [show (('\x7b' :: membersChars ms) ++ ['\x7d'] : Chars) =
    '\x7b' :: (membersChars ms ++ ['\x7d']) from rfl]
  rw [trimChars_of_ends '\x7b' '\x7d' (membersChars ms) rfl rfl]
  rw [quoteKeys_structOk _ hso]
  rw [removeTrailingCommas_structOk _ hso]

theorem normalize_serialized (ms : List (String × String))
    (hms : ∀ kv ∈ ms, safeStr kv.1 = true ∧ safeStr kv.2 = true)
    (hne : ms ≠ []) :
    normalize (String.mk ('\x7b' :: (membersChars ms ++ ['\x7d']))) =
      validateMembers (ms.map (fun kv => (kv.1, Json.str kv.2))) := by
  have hsafe : ∀ kv ∈ ms, (∀ c ∈ (kv.1 : String).data, safeChar c = true) ∧
      (∀ c ∈ (kv.2 : String).data, safeChar c = true) := by
    intro kv hkv
    refine ⟨?_, ?_⟩
    · simpa [safeStr, List.all_eq_true] using (hms kv hkv).1
    · simpa [safeStr, List.all_eq_true] using (hms kv hkv).2
  have hstep : normalize (String.mk ('\x7b' :: (membersChars ms ++ ['\x7d']))) =
      (if trimChars ('\x7b' :: (membersChars ms ++ ['\x7d'])) = [] then
        .error .emptyInput
      else dispatchParsed (parseJsonText (String.mk (preprocess
        (trimChars ('\x7b' :: (membersChars ms ++ ['\x7d']))))))) := rfl
  rw [hstep, trimChars_of_ends '\x7b' '\x7d' (membersChars ms) rfl rfl]
  rw [if_neg (by simp)]
  rw [preprocess_serialized ms hsafe hne]
  rw [parseJsonText_serialized ms hms hne]
  rfl

end Normalizer

namespace Normalizer

theorem validate_six (a b c d e f : String)
    (ha : a ≠ "") (hb : b ≠ "") (hc : c ≠ "") (hd : d ≠ "") (hf : f ≠ "") :
    validateMembers
      [("apiKey", Json.str a), ("authDomain", Json.str b),
       ("projectId", Json.str c), ("storageBucket", Json.str d),
       ("messagingSenderId", Json.str e), ("appId", Json.str f)] =
      .ok ⟨Json.str a, Json.str b, Json.str c, Json.str d, Json.str e,
           Json.str f, none⟩ := by
  have ha' : (a != "") = true := by simpa using ha
  have hb' : (b != "") = true := by simpa using hb
  have hc' : (c != "") = true := by simpa using hc
  have hd' : (d != "") = true := by simpa using hd
  have hf' : (f != "") = true := by simpa using hf
  have g1 : objGet [("apiKey", Json.str a), ("authDomain", Json.str b),
      ("projectId", Json.str c), ("storageBucket", Json.str d),
      ("messagingSenderId", Json.str e), ("appId", Json.str f)] "apiKey" =
      some (Json.str a) := rfl
  have g2 : objGet [("apiKey", Json.str a), ("authDomain", Json.str b),
      ("projectId", Json.str c), ("storageBucket", Json.str d),
      ("messagingSenderId", Json.str e), ("appId", Json.str f)] "authDomain" =
      some (Json.str b) := rfl
  have g3 : objGet [("apiKey", Json.str a), ("authDomain", Json.str b),
      ("projectId", Json.str c), ("storageBucket", Json.str d),
      ("messagingSenderId", Json.str e), ("appId", Json.str f)] "projectId" =
      some (Json.str c) := rfl
  have g4 : objGet [("apiKey", Json.str a), ("authDomain", Json.str b),
      ("projectId", Json.str c), ("storageBucket", Json.str d),
      ("messagingSenderId", Json.str e), ("appId", Json.str f)] "storageBucket" =
      some (Json.str d) := rfl
  have g5 : objGet [("apiKey", Json.str a), ("authDomain", Json.str b),
      ("projectId", Json.str c), ("storageBucket", Json.str d),
      ("messagingSenderId", Json.str e), ("appId", Json.str f)]
      "messagingSenderId" = some (Json.str e) := rfl
  have g6 : objGet [("apiKey", Json.str a), ("authDomain", Json.str b),
      ("projectId", Json.str c), ("storageBucket", Json.str d),
      ("messagingSenderId", Json.str e), ("appId", Json.str f)] "appId" =
      some (Json.str f) := rfl
  have g7 : objGet [("apiKey", Json.str a), ("authDomain", Json.str b),
      ("projectId", Json.str c), ("storageBucket", Json.str d),
      ("messagingSenderId", Json.str e), ("appId", Json.str f)]
      "measurementId" = none := rfl
  simp only [validateMembers, requiredFields, List.filter, g1, g2, g3, g4, g5,
    g6, g7, jsonTruthy, ha', hb', hc', hd', hf', Bool.not_true, if_true,
    Option.getD]
  by_cases he : e = ""
  · subst he; simp
  · have he' : (e != "") = true := by simpa using he
    simp [he']

end Normalizer

namespace Normalizer

theorem validate_seven (a b c d e f m : String)
    (ha : a ≠ "") (hb : b ≠ "") (hc : c ≠ "") (hd : d ≠ "") (hf : f ≠ "")
    (hm : m ≠ "") :
    validateMembers
      [("apiKey", Json.str a), ("authDomain", Json.str b),
       ("projectId", Json.str c), ("storageBucket", Json.str d),
       ("messagingSenderId", Json.str e), ("appId", Json.str f),
       ("measurementId", Json.str m)] =
      .ok ⟨Json.str a, Json.str b, Json.str c, Json.str d, Json.str e,
           Json.str f, some (Json.str m)⟩ := by
  have ha' : (a != "") = true := by simpa using ha
  have hb' : (b != "") = true := by simpa using hb
  have hc' : (c != "") = true := by simpa using hc
  have hd' : (d != "") = true := by simpa using hd
  have hf' : (f != "") = true := by simpa using hf
  have hm' : (m != "") = true := by simpa using hm
  have g1 : objGet [("apiKey", Json.str a), ("authDomain", Json.str b),
      ("projectId", Json.str c), ("storageBucket", Json.str d),
      ("messagingSenderId", Json.str e), ("appId", Json.str f),
      ("measurementId", Json.str m)] "apiKey" = some (Json.str a) := rfl
  have g2 : objGet [("apiKey", Json.str a), ("authDomain", Json.str b),
      ("projectId", Json.str c), ("storageBucket", Json.str d),
      ("messagingSenderId", Json.str e), ("appId", Json.str f),
      ("measurementId", Json.str m)] "authDomain" = some (Json.str b) := rfl
  have g3 : objGet [("apiKey", Json.str a), ("authDomain", Json.str b),
      ("projectId", Json.str c), ("storageBucket", Json.str d),
      ("messagingSenderId", Json.str e), ("appId", Json.str f),
      ("measurementId", Json.str m)] "projectId" = some (Json.str c) := rfl
  have g4 : objGet [("apiKey", Json.str a), ("authDomain", Json.str b),
      ("projectId", Json.str c), ("storageBucket", Json.str d),
      ("messagingSenderId", Json.str e), ("appId", Json.str f),
      ("measurementId", Json.str m)] "storageBucket" = some (Json.str d) := rfl
  have g5 : objGet [("apiKey", Json.str a), ("authDomain", Json.str b),
      ("projectId", Json.str c), ("storageBucket", Json.str d),
      ("messagingSenderId", Json.str e), ("appId", Json.str f),
      ("measurementId", Json.str m)] "messagingSenderId" = some (Json.str e) := rfl
  have g6 : objGet [("apiKey", Json.str a), ("authDomain", Json.str b),
      ("projectId", Json.str c), ("storageBucket", Json.str d),
      ("messagingSenderId", Json.str e), ("appId", Json.str f),
      ("measurementId", Json.str m)] "appId" = some (Json.str f) := rfl
  have g7 : objGet [("apiKey", Json.str a), ("authDomain", Json.str b),
      ("projectId", Json.str c), ("storageBucket", Json.str d),
      ("messagingSenderId", Json.str e), ("appId", Json.str f),
      ("measurementId", Json.str m)] "measurementId" = some (Json.str m) := rfl
  simp only [validateMembers, requiredFields, List.filter, g1, g2, g3, g4, g5,
    g6, g7, jsonTruthy, ha', hb', hc', hd', hf', hm', Bool.not_true, if_true,
    Option.getD]
  by_cases he : e = ""
  · subst he; simp
  · have he' : (e != "") = true := by simpa using he
    simp [he']

end Normalizer

/-- C9 amended: the normalizer is idempotent on its own output only for
records whose field values avoid the characters the regex stages react to
(quote, backslash, slash, braces, brackets, comma, colon, control
characters): for every such record with truthy mandatory fields — which is
the shape of every normalize output up to those value restrictions —
normalizing its strict-JSON serialization succeeds and returns the identical
record.  Without the restriction the property fails (see the
counterexample). -/
theorem normalize_stringify_roundtrip (S : Normalizer.StrConfig)
    (hA : Normalizer.safeStr S.apiKey = true) (hAne : S.apiKey ≠ "")
    (hB : Normalizer.safeStr S.authDomain = true) (hBne : S.authDomain ≠ "")
    (hC : Normalizer.safeStr S.projectId = true) (hCne : S.projectId ≠ "")
    (hD : Normalizer.safeStr S.storageBucket = true)
    (hDne : S.storageBucket ≠ "")
    (hE : Normalizer.safeStr S.messagingSenderId = true)
    (hF : Normalizer.safeStr S.appId = true) (hFne : S.appId ≠ "")
    (hM : ∀ m, S.measurementId = some m →
      Normalizer.safeStr m = true ∧ m ≠ "") :
    Normalizer.normalize (Normalizer.stringifyStrConfig S) =
      .ok (Normalizer.ofStrConfig S) := by
  obtain ⟨a, b, c, d, e, f, mm⟩ := S
  cases mm with
  | none =>
    have hms : ∀ kv ∈ [("apiKey", a), ("authDomain", b), ("projectId", c),
        ("storageBucket", d), ("messagingSenderId", e), ("appId", f)],
        Normalizer.safeStr kv.1 = true ∧ Normalizer.safeStr kv.2 = true := by
      intro kv hkv
      simp only [List.mem_cons, List.not_mem_nil, or_false] at hkv
      rcases hkv with rfl | rfl | rfl | rfl | rfl | rfl
      · exact ⟨(by decide : Normalizer.safeStr "apiKey" = true), hA⟩
      · exact ⟨(by decide : Normalizer.safeStr "authDomain" = true), hB⟩
      · exact ⟨(by decide : Normalizer.safeStr "projectId" = true), hC⟩
      · exact ⟨(by decide : Normalizer.safeStr "storageBucket" = true), hD⟩
      · exact ⟨(by decide : Normalizer.safeStr "messagingSenderId" = true), hE⟩
      · exact ⟨(by decide : Normalizer.safeStr "appId" = true), hF⟩
    rw [show Normalizer.stringifyStrConfig ⟨a, b, c, d, e, f, none⟩ =
      String.mk ('\x7b' :: (Normalizer.membersChars
        [("apiKey", a), ("authDomain", b), ("projectId", c),
         ("storageBucket", d), ("messagingSenderId", e), ("appId", f)] ++
        ['\x7d'])) from rfl]
    rw [Normalizer.normalize_serialized _ hms (by simp)]
    rw [show (([("apiKey", a), ("authDomain", b), ("projectId", c),
        ("storageBucket", d), ("messagingSenderId", e), ("appId", f)] :
        List (String × String)).map
        (fun kv => (kv.1, Normalizer.Json.str kv.2))) =
      [("apiKey", Normalizer.Json.str a), ("authDomain", Normalizer.Json.str b),
       ("projectId", Normalizer.Json.str c),
       ("storageBucket", Normalizer.Json.str d),
       ("messagingSenderId", Normalizer.Json.str e),
       ("appId", Normalizer.Json.str f)] from rfl]
    rw [Normalizer.validate_six a b c d e f hAne hBne hCne hDne hFne]
    rfl
  | some m =>
    obtain ⟨hMsafe, hMne⟩ := hM m rfl
    have hms : ∀ kv ∈ [("apiKey", a), ("authDomain", b), ("projectId", c),
        ("storageBucket", d), ("messagingSenderId", e), ("appId", f),
        ("measurementId", m)],
        Normalizer.safeStr kv.1 = true ∧ Normalizer.safeStr kv.2 = true := by
      intro kv hkv
      simp only [List.mem_cons, List.not_mem_nil, or_false] at hkv
      rcases hkv with rfl | rfl | rfl | rfl | rfl | rfl | rfl
      · exact ⟨(by decide : Normalizer.safeStr "apiKey" = true), hA⟩
      · exact ⟨(by decide : Normalizer.safeStr "authDomain" = true), hB⟩
      · exact ⟨(by decide : Normalizer.safeStr "projectId" = true), hC⟩
      · exact ⟨(by decide : Normalizer.safeStr "storageBucket" = true), hD⟩
      · exact ⟨(by decide : Normalizer.safeStr "messagingSenderId" = true), hE⟩
      · exact ⟨(by decide : Normalizer.safeStr "appId" = true), hF⟩
      · exact ⟨(by decide : Normalizer.safeStr "measurementId" = true), hMsafe⟩
    rw [show Normalizer.stringifyStrConfig ⟨a, b, c, d, e, f, some m⟩ =
      String.mk ('\x7b' :: (Normalizer.membersChars
        [("apiKey", a), ("authDomain", b), ("projectId", c),
         ("storageBucket", d), ("messagingSenderId", e), ("appId", f),
         ("measurementId", m)] ++ ['\x7d'])) from rfl]
    rw [Normalizer.normalize_serialized _ hms (by simp)]
    rw [show (([("apiKey", a), ("authDomain", b), ("projectId", c),
        ("storageBucket", d), ("messagingSenderId", e), ("appId", f),
        ("measurementId", m)] : List (String × String)).map
        (fun kv => (kv.1, Normalizer.Json.str kv.2))) =
      [("apiKey", Normalizer.Json.str a), ("authDomain", Normalizer.Json.str b),
       ("projectId", Normalizer.Json.str c),
       ("storageBucket", Normalizer.Json.str d),
       ("messagingSenderId", Normalizer.Json.str e),
       ("appId", Normalizer.Json.str f),
       ("measurementId", Normalizer.Json.str m)] from rfl]
    rw [Normalizer.validate_seven a b c d e f m hAne hBne hCne hDne hFne hMne]
    rfl

theorem normalize_stringify_roundtrip_witness :
    Normalizer.normalize (Normalizer.stringifyStrConfig
      ⟨"AIzaK", "p.firebaseapp.com", "p-1", "p.appspot.com", "",
       "1 23 web ab", none⟩) =
      .ok (Normalizer.ofStrConfig
        ⟨"AIzaK", "p.firebaseapp.com", "p-1", "p.appspot.com", "",
         "1 23 web ab", none⟩) :=
  normalize_stringify_roundtrip
    ⟨"AIzaK", "p.firebaseapp.com", "p-1", "p.appspot.com", "",
     "1 23 web ab", none⟩
    (by decide) (by decide) (by decide) (by decide) (by decide) (by decide)
    (by decide) (by decide) (by decide) (by decide) (by decide)
    (fun m hm => Option.noConfusion hm)
